import Mathlib

/-!
Shallow embedding of the CSV-to-JSON converter (`src/csv_to_json.py`, with
`src/converter.py` as the restricted variant of the same pipeline).

Python-specific behaviour that the embedding reproduces:
* `csv.DictReader` builds each row as `dict(zip(fieldnames, row))`, pads a
  short row with `restval = None` for the missing trailing field names, and
  stores the extra fields of a long row as a list under the `restkey = None`
  key; completely blank lines yield `[]` rows which `DictReader` skips.
* Python `dict` insertion semantics: a duplicate key overwrites the stored
  value in place, keeping first-insertion order.
* `str.isdigit`, `str.strip`, `str.lower`, `float(...)` and `json.dumps`
  are modelled on their ASCII fragment (all inputs exercised by the claims
  are ASCII apart from serializer payloads, where arbitrary characters are
  modelled); CSV quoting is not modelled because every claim input is
  quote-free, and only `\n` line terminators are modelled.
-/

namespace CsvToJson

/-- Equality of embedded results is decidable, so theorems about concrete
inputs can be settled by evaluation. -/
instance {ε α : Type} [DecidableEq ε] [DecidableEq α] : DecidableEq (Except ε α) := fun x y =>
  match x, y with
  | .ok a, .ok b =>
    if h : a = b then .isTrue (by rw [h]) else .isFalse (by intro hc; cases hc; exact h rfl)
  | .ok _, .error _ => .isFalse (fun hc => by cases hc)
  | .error _, .ok _ => .isFalse (fun hc => by cases hc)
  | .error a, .error b =>
    if h : a = b then .isTrue (by rw [h]) else .isFalse (by intro hc; cases hc; exact h rfl)

/-- ASCII decimal digit test; fragment of Python `str.isdigit` used on the
claim inputs (Python additionally accepts non-ASCII Unicode digits). -/
def isPyDigit (c : Char) : Bool := '0' ≤ c && c ≤ '9'

/-- ASCII whitespace recognised by Python `str.strip` / `float`. -/
def isPySpace (c : Char) : Bool :=
  c = ' ' || c = '\t' || c = '\n' || c = '\r' || c = '\x0b' || c = '\x0c'

/-- Drop whitespace from both ends of a character list (Python `str.strip`). -/
def stripList (l : List Char) : List Char :=
  ((l.dropWhile isPySpace).reverse.dropWhile isPySpace).reverse

/-- Python `str.strip` on strings. -/
def pyStrip (s : String) : String := String.mk (stripList s.data)

/-- Python `str.isdigit`: nonempty and all digits. -/
def pyIsdigit (s : String) : Bool := !s.data.isEmpty && s.data.all isPyDigit

/-- ASCII lowercasing of one character (fragment of Python `str.lower`). -/
def lowerChar (c : Char) : Char :=
  if 'A' ≤ c && c ≤ 'Z' then Char.ofNat (c.toNat + 32) else c

/-- Python `str.lower` on strings (ASCII fragment). -/
def pyLower (s : String) : String := String.mk (s.data.map lowerChar)

/-- Value of a digit list read in base 10, as `int(...)` does on a digit
string. -/
def digitsToNat (l : List Char) : Nat := l.foldl (fun a c => 10 * a + (c.toNat - 48)) 0

/-- Python `float` values as far as the program observes them: the special
values `nan`/`±inf` and finite values.  A finite value is carried as the
exact rational denoted by the accepted decimal literal, as a normalized
numerator/denominator pair; the IEEE-754 rounding of that rational and
Python `repr` of finite floats are abstracted away, and no claim depends on
either. -/
inductive PyFloat where
  | nan
  | inf (neg : Bool)
  | finite (num : Int) (den : Nat)
deriving DecidableEq

/-- Normalized finite float value `±mantissa / den`. -/
def mkFinite (neg : Bool) (mantissa den : Nat) : PyFloat :=
  let g := Nat.gcd mantissa den
  let n := mantissa / g
  .finite (if neg then -(n : Int) else (n : Int)) (den / g)

/-- Consume a maximal run of leading ASCII digits. -/
def takeDigits : List Char → List Char × List Char
  | [] => ([], [])
  | c :: cs =>
    if isPyDigit c then
      let p := takeDigits cs
      (c :: p.1, p.2)
    else ([], c :: cs)

/-- Decimal part of Python `float(str)`: `digits [. digits] [(e|E) [sign]
digits]` with at least one mantissa digit (underscore separators are not
modelled; no claim input uses them). -/
def parseDecimal (neg : Bool) (l : List Char) : Option PyFloat :=
  let p1 := takeDigits l
  let p2 :=
    match p1.2 with
    | '.' :: rest => takeDigits rest
    | _ => ([], p1.2)
  if p1.1.isEmpty && p2.1.isEmpty then none
  else
    let mant : Nat := digitsToNat (p1.1 ++ p2.1)
    let fracLen := p2.1.length
    match p2.2 with
    | [] => some (mkFinite neg mant (10 ^ fracLen))
    | e :: rest =>
      if e = 'e' || e = 'E' then
        let sp :=
          match rest with
          | '+' :: t => (false, t)
          | '-' :: t => (true, t)
          | t => (false, t)
        let pe := takeDigits sp.2
        if pe.1.isEmpty || !pe.2.isEmpty then none
        else
          let ev : Nat := digitsToNat pe.1
          if sp.1 then some (mkFinite neg mant (10 ^ (fracLen + ev)))
          else some (mkFinite neg (mant * 10 ^ ev) (10 ^ fracLen))
      else none

/-- Python `float(str)`: strip whitespace, optional sign, then the
case-insensitive special words `inf`/`infinity`/`nan` or a decimal literal;
`none` models the `ValueError` raised on any other text. -/
def pyFloatOfString (s : String) : Option PyFloat :=
  let l := stripList s.data
  let sb :=
    match l with
    | '+' :: t => (false, t)
    | '-' :: t => (true, t)
    | t => (false, t)
  let low := sb.2.map lowerChar
  if low = "inf".data || low = "infinity".data then some (.inf sb.1)
  else if low = "nan".data then some .nan
  else parseDecimal sb.1 sb.2

/-- JSON-serializable values the program can place in a row: cell strings,
the `None` fill-in for a short row (`restval`), the list of extra cell
strings of a long row (`restkey` value), and the scalars produced by
`_infer_type`. -/
inductive JVal where
  | s (v : String)
  | i (v : Int)
  | f (v : PyFloat)
  | b (v : Bool)
  | null
  | arr (vs : List String)
deriving DecidableEq

/-- `_infer_type` (src/csv_to_json.py lines 195-222): non-strings pass
through; a digit string becomes `int`, else a successful `float` parse wins,
else lowercase `true`/`false` becomes a boolean, else the string is kept. -/
def inferType : JVal → JVal
  | .s v =>
    if pyIsdigit v then .i (digitsToNat v.data)
    else
      match pyFloatOfString v with
      | some fv => .f fv
      | none =>
        if pyLower v = "true" then .b true
        else if pyLower v = "false" then .b false
        else .s v
  | x => x

/-- Row keys: `some name` for a header column, `none` for the `DictReader`
restkey that collects the extra fields of an over-long row. -/
abbrev Key := Option String

/-- One parsed row: a Python dict in insertion order. -/
abbrev Row := List (Key × JVal)

/-- Keys of a row dict, in insertion order. -/
def dictKeys (d : Row) : List Key := d.map Prod.fst

/-- Python dict assignment `d[k] = v`: overwrite in place or append. -/
def dictSet : Row → Key → JVal → Row
  | [], k, v => [(k, v)]
  | (k', v') :: rest, k, v =>
    if k' = k then (k', v) :: rest else (k', v') :: dictSet rest k v

/-- Python dict lookup `d[k]` (defaulting to `null`; every use in the
program is guarded by a membership test). -/
def dictGet : Row → Key → JVal
  | [], _ => .null
  | (k', v') :: rest, k => if k' = k then v' else dictGet rest k

/-- `dict(zip(fieldnames, row))` of `DictReader.__next__`. -/
def zipDict (fn fields : List String) : Row :=
  (List.zip fn fields).foldl (fun d p => dictSet d (some p.1) (.s p.2)) []

/-- The dict built by `DictReader.__next__` for one raw record: zip, then
either store the extra fields under the `None` restkey or pad the missing
trailing field names with the `None` restval. -/
def buildRow (fn fields : List String) : Row :=
  let d := zipDict fn fields
  if fn.length < fields.length then
    dictSet d none (.arr (fields.drop fn.length))
  else if fields.length < fn.length then
    (fn.drop fields.length).foldl (fun d' k => dictSet d' (some k) .null) d
  else d

/-- Python truthiness of the values a row can hold. -/
def pyTruthy : JVal → Bool
  | .s v => v ≠ ""
  | .i n => n ≠ 0
  | .f fv => fv ≠ .finite 0 1
  | .b bv => bv
  | .null => false
  | .arr vs => !vs.isEmpty

/-- The blank-row test `any(value.strip() for value in row.values() if
value)` (src/csv_to_json.py line 165): lazily scan the truthy values; a
truthy non-string value (the restkey list) has no `.strip` and raises
`AttributeError`, modelled as the `.error` branch. -/
def rowNonBlank : List JVal → Except Unit Bool
  | [] => .ok false
  | v :: rest =>
    if pyTruthy v then
      match v with
      | .s sv => if pyStrip sv ≠ "" then .ok true else rowNonBlank rest
      | _ => .error ()
    else rowNonBlank rest

/-- Error kinds raised by `parse_csv`, tagged with the data they carry.
`unknownColumn` carries the set `set(columns) - set(fieldnames)` as a
duplicate-free list in first-request order (Python joins the set in hash
order, which determines the same set of names). -/
inductive PErr where
  | notFound
  | tooLarge
  | emptyInput
  | inconsistentRow (lineNum : Nat)
  | unknownColumn (cols : List String)
  | attrError
deriving DecidableEq

/-- The dict comprehension `{col: row[col] for col in columns if col in
row}` (src/csv_to_json.py line 180). -/
def projectRow (cols : List String) (d : Row) : Row :=
  cols.foldl
    (fun r c => if (some c) ∈ dictKeys d then dictSet r (some c) (dictGet d (some c)) else r) []

/-- The `for row_num, row in enumerate(reader, start=2)` loop body of
`parse_csv` (src/csv_to_json.py lines 163-183): skip blank rows, enforce the
field-count check, validate and apply the optional column selection.
`columns = some []` falls into the unfiltered branch because an empty list
is falsy in `if columns:`. -/
def processRows (fn : List String) (columns : Option (List String)) :
    List (List String) → Nat → List Row → Except PErr (List Row)
  | [], _, acc => .ok acc
  | fields :: rest, n, acc =>
    let d := buildRow fn fields
    match rowNonBlank (d.map Prod.snd) with
    | .error _ => .error .attrError
    | .ok false => processRows fn columns rest (n + 1) acc
    | .ok true =>
      if d.length ≠ fn.length then .error (.inconsistentRow n)
      else
        match columns with
        | some cols =>
          if cols.isEmpty then processRows fn columns rest (n + 1) (acc ++ [d])
          else
            let invalid := (cols.filter (fun c => !(fn.contains c))).dedup
            if invalid.isEmpty then
              processRows fn columns rest (n + 1) (acc ++ [projectRow cols d])
            else .error (.unknownColumn invalid)
        | none => processRows fn columns rest (n + 1) (acc ++ [d])

/-- Split a character list at every occurrence of `delim` (the unquoted
fragment of the `csv` module's record scan). -/
def splitFields (delim : Char) : List Char → List (List Char)
  | [] => [[]]
  | c :: cs =>
    match splitFields delim cs with
    | [] => [[]]
    | f :: fs => if c = delim then [] :: f :: fs else (c :: f) :: fs

/-- Split file content into lines on `\n`; a trailing newline does not open
a final empty line, matching Python text-file iteration. -/
def splitLinesList (content : List Char) : List (List Char) :=
  let ls := splitFields '\n' content
  if ls.getLast? = some [] then ls.dropLast else ls

/-- One line as a `csv` record: a blank line yields the empty record `[]`,
otherwise the delimiter-separated fields. -/
def readRow (delim : Char) (line : List Char) : List String :=
  if line.isEmpty then [] else (splitFields delim line).map String.mk

/-- The sequence of raw records the `csv.reader` yields for the file. -/
def linesRows (content : String) (delim : Char) : List (List String) :=
  (splitLinesList content.data).map (readRow delim)

/-- `reader.fieldnames`: the first raw record, `[]` when the file is empty
(Python returns `None` there; both are falsy in `if not reader.fieldnames`). -/
def headerOf (content : String) (delim : Char) : List String :=
  match linesRows content delim with
  | [] => []
  | h :: _ => h

/-- The 10 MiB size cap of src/csv_to_json.py line 145. -/
def MAX_SIZE : Nat := 10 * 1024 * 1024

/-- `parse_csv` (src/csv_to_json.py lines 121-192).  The file system is
abstracted to the two facts the function reads: whether the path exists and
the file's byte size; `content` is the decoded text.  Delimiter detection is
out of scope here (the detector's output is this function's `delim`
argument), and the `csv.Error` re-raise path cannot fire on quote-free
input. -/
def parse_csv (fileExists : Bool) (size : Nat) (content : String) (delim : Char)
    (columns : Option (List String)) : Except PErr (List Row) :=
  if !fileExists then .error .notFound
  else if MAX_SIZE < size then .error .tooLarge
  else
    match linesRows content delim with
    | [] => .error .emptyInput
    | header :: rest =>
      if header.isEmpty then .error .emptyInput
      else
        match processRows header columns (rest.filter (fun r => !r.isEmpty)) 2 [] with
        | .error e => .error e
        | .ok data => if data.isEmpty then .error .emptyInput else .ok data

/-- The dict comprehension `{k: _infer_type(v) for k, v in row.items()}`
of `convert_to_json` (src/csv_to_json.py line 241). -/
def applyInferRow (row : Row) : Row :=
  row.foldl (fun r p => dictSet r p.1 (inferType p.2)) []

/-- Type inference over the whole dataset (`convert_to_json` line 241). -/
def applyInfer (data : List Row) : List Row := data.map applyInferRow

/-- Lowercase hexadecimal digit. -/
def hexChar (n : Nat) : Char := if n < 10 then Char.ofNat (48 + n) else Char.ofNat (87 + n)

/-- Per-character escaping of `json.dumps` with `ensure_ascii=False`:
quote, backslash and control characters are escaped, every other character
(including every non-ASCII character) is emitted verbatim. -/
def escapeChar (c : Char) : List Char :=
  if c = '"' then ['\\', '"']
  else if c = '\\' then ['\\', '\\']
  else if c = '\n' then ['\\', 'n']
  else if c = '\t' then ['\\', 't']
  else if c = '\r' then ['\\', 'r']
  else if c.toNat = 8 then ['\\', 'b']
  else if c.toNat = 12 then ['\\', 'f']
  else if c.toNat < 32 then ['\\', 'u', '0', '0', hexChar (c.toNat / 16), hexChar (c.toNat % 16)]
  else [c]

/-- JSON string literal rendering of `json.dumps`. -/
def dumpsStr (s : String) : String :=
  String.mk ('"' :: (s.data.map escapeChar).flatten ++ ['"'])

/-- `repr(float)` as used by the JSON encoder on the observed values:
`nan`/`inf` render as the bare tokens `NaN`/`Infinity`/`-Infinity` (the
encoder's `floatstr` emits them without any validity guard).  The rendering
of finite floats abstracts Python's shortest-repr algorithm; no claim
exercises it. -/
def floatRepr : PyFloat → String
  | .nan => "NaN"
  | .inf false => "Infinity"
  | .inf true => "-Infinity"
  | .finite n d => toString n ++ "/" ++ toString d

/-- Dict key rendering of `json.dumps`: the `None` restkey is coerced to
the string key `"null"`. -/
def keyRepr : Key → String
  | none => "\"null\""
  | some k => dumpsStr k

/-- Interleave a separator (`str.join`). -/
def joinSep (sep : String) : List String → String
  | [] => ""
  | [x] => x
  | x :: y :: rest => x ++ sep ++ joinSep sep (y :: rest)

/-- Single-line rendering of a scalar value; a nested list is single-line
only in compact mode. -/
def dumpsScalar : JVal → String
  | .s v => dumpsStr v
  | .i n => toString n
  | .f fv => floatRepr fv
  | .b true => "true"
  | .b false => "false"
  | .null => "null"
  | .arr vs => "[" ++ joinSep ", " (vs.map dumpsStr) ++ "]"

/-- Indentation of `indent=4` at a nesting level. -/
def pad (n : Nat) : String := String.mk (List.replicate (4 * n) ' ')

/-- Value rendering in pretty mode at a nesting level: a nested list is
spread over indented lines exactly as `json.dumps(..., indent=4)` does. -/
def dumpsValPretty (level : Nat) : JVal → String
  | .arr vs =>
    if vs.isEmpty then "[]"
    else "[\n" ++ joinSep ",\n" (vs.map (fun v => pad (level + 1) ++ dumpsStr v)) ++
      "\n" ++ pad level ++ "]"
  | v => dumpsScalar v

/-- One row object in compact mode: `json.dumps` default separators
`(', ', ': ')`. -/
def dumpsRowCompact (row : Row) : String :=
  if row.isEmpty then "\x7b\x7d"
  else "\x7b" ++ joinSep ", " (row.map (fun p => keyRepr p.1 ++ ": " ++ dumpsScalar p.2)) ++ "\x7d"

/-- Compact rendering of the dataset (`json.dumps(csv_data)`): item
separator `', '`, key separator `': '`, no newlines of its own. -/
def dumpsCompact (data : List Row) : String :=
  "[" ++ joinSep ", " (data.map dumpsRowCompact) ++ "]"

/-- One row object in pretty mode (`indent=4`). -/
def dumpsRowPretty (row : Row) : String :=
  if row.isEmpty then "\x7b\x7d"
  else "\x7b\n" ++
    joinSep ",\n" (row.map (fun p => pad 2 ++ keyRepr p.1 ++ ": " ++ dumpsValPretty 2 p.2)) ++
    "\n" ++ pad 1 ++ "\x7d"

/-- Pretty rendering of the dataset (`json.dumps(csv_data, indent=4)`). -/
def dumpsPretty (data : List Row) : String :=
  if data.isEmpty then "[]"
  else "[\n" ++ joinSep ",\n" (data.map (fun r => pad 1 ++ dumpsRowPretty r)) ++ "\n]"

/-- `convert_to_json` (src/csv_to_json.py lines 225-249): optional type
inference, then `json.dumps` with `ensure_ascii=False`, pretty or compact.
The `except TypeError` guard re-raises only when a value outside the
JSON-serializable types reaches the encoder; every `JVal` is serializable,
so the embedded function always returns `.ok`. -/
def convert_to_json (csvData : List Row) (pretty : Bool) (inferTypes : Bool) :
    Except String String :=
  let d := if inferTypes then applyInfer csvData else csvData
  .ok (if pretty then dumpsPretty d else dumpsCompact d)

/-! ## Claim theorems -/

/-- C1: the spec, the claim and the repository's own test
`test_parse_csv_inconsistent_columns` all demand that a data row with fewer
fields than the header fail with `InconsistentRow`, but `csv.DictReader`
pads such a row with the `None` restval, so the `len(row) !=
len(reader.fieldnames)` check passes and `parse_csv` succeeds on the spec's
Scenario 2 input, returning the short row padded with a null `city`. -/
theorem parse_csv_pads_short_row :
    parse_csv true 0 "name,age,city\nJohn,25\nJane,30,LA" ',' none =
      .ok [[(some "name", .s "John"), (some "age", .s "25"), (some "city", .null)],
           [(some "name", .s "Jane"), (some "age", .s "30"), (some "city", .s "LA")]] := by
  decide

/-- C2 counterexample: under the duplicate header `a,a`, the well-formed data
row `1,2` does not parse; the collapsed row dict has one key against two
header columns, so `parse_csv` fails with `InconsistentRow` at line 2,
refuting "parsing succeeds for otherwise well-formed rows". -/
theorem parse_csv_dup_header_rejects_row :
    parse_csv true 0 "a,a\n1,2" ',' none = .error (.inconsistentRow 2) := by decide

/-- C3 counterexample: the Dataset parsed from the spec's Scenario 1 input
does not serialize compactly to the whitespace-free text the claim states;
`json.dumps` keeps its default separators. -/
theorem compact_json_counterexample :
    parse_csv true 0 "name,age\nAlice,30\nBob,25" ',' none =
      .ok [[(some "name", .s "Alice"), (some "age", .s "30")],
           [(some "name", .s "Bob"), (some "age", .s "25")]] ∧
    convert_to_json
        [[(some "name", .s "Alice"), (some "age", .s "30")],
         [(some "name", .s "Bob"), (some "age", .s "25")]] false false ≠
      .ok "[\x7b\"name\":\"Alice\",\"age\":\"30\"\x7d,\x7b\"name\":\"Bob\",\"age\":\"25\"\x7d]" := by
  refine ⟨by decide, by decide⟩

/-- C3 amended: compact mode omits the pretty mode's newlines and
indentation but keeps the `json.dumps` default separators `', '` and
`': '`, so the Scenario 1 Dataset serializes to
`[{"name": "Alice", "age": "30"}, {"name": "Bob", "age": "25"}]`, a text
containing spaces after each comma and colon and no newline. -/
theorem compact_json_separators :
    convert_to_json
        [[(some "name", .s "Alice"), (some "age", .s "30")],
         [(some "name", .s "Bob"), (some "age", .s "25")]] false false =
      .ok "[\x7b\"name\": \"Alice\", \"age\": \"30\"\x7d, \x7b\"name\": \"Bob\", \"age\": \"25\"\x7d]" ∧
    ("[\x7b\"name\": \"Alice\", \"age\": \"30\"\x7d, \x7b\"name\": \"Bob\", \"age\": \"25\"\x7d]".data.all
      (fun c => c ≠ '\n')) = true := by
  refine ⟨by decide, by decide⟩

/-- C4 counterexample: with `ensure_ascii=False` a non-ASCII character in a
string value reaches the output verbatim in compact mode, so the output is
not ASCII-only as the claim states. -/
theorem nonascii_output_counterexample :
    convert_to_json [[(some "name", .s "José")]] false false =
      .ok "[\x7b\"name\": \"José\"\x7d]" ∧
    ("[\x7b\"name\": \"José\"\x7d]".data.all (fun c => c.toNat < 128)) = false := by
  refine ⟨by decide, by decide⟩

/-- C5 counterexample: `" 42"` trims to a digit sequence, but
`str.isdigit` is applied to the untrimmed text, so `_infer_type` classifies
it by the `float` branch as `42.0` instead of the integer the claim
states. -/
theorem infer_whitespace_counterexample :
    inferType (.s " 42") ≠ .i 42 ∧ inferType (.s " 42") = .f (.finite 42 1) := by
  refine ⟨by decide, by decide⟩

/-- C10: `_infer_type` turns `"nan"`, `"inf"` and `"Infinity"` into floats
via Python's `float` parser, and `json.dumps` then emits the bare tokens
`NaN` / `Infinity` into the output with no error raised — the `TypeError`
guard never fires, and the tokens appear unquoted in both modes. -/
theorem nan_inf_serialization :
    inferType (.s "nan") = .f .nan ∧
    inferType (.s "inf") = .f (.inf false) ∧
    inferType (.s "Infinity") = .f (.inf false) ∧
    convert_to_json [[(some "x", .s "nan")]] false true = .ok "[\x7b\"x\": NaN\x7d]" ∧
    convert_to_json [[(some "x", .s "inf"), (some "y", .s "Infinity")]] false true =
      .ok "[\x7b\"x\": Infinity, \"y\": Infinity\x7d]" ∧
    convert_to_json [[(some "x", .s "nan")]] true true =
      .ok "[\n    \x7b\n        \"x\": NaN\n    \x7d\n]" := by
  refine ⟨by decide, by decide, by decide, by decide, by decide, by decide⟩

/-! ## Dict lemmas -/

/-- Keys after a dict assignment: unchanged on overwrite, extended on a
fresh key. -/
theorem dictKeys_dictSet (d : Row) (k : Key) (v : JVal) :
    dictKeys (dictSet d k v) =
      if k ∈ dictKeys d then dictKeys d else dictKeys d ++ [k] := by
  induction d with
  | nil => simp [dictSet, dictKeys]
  | cons p rest ih =>
    obtain ⟨k', v'⟩ := p
    by_cases h : k' = k
    · subst h
      simp [dictSet, dictKeys]
    · simp only [dictSet, if_neg h, dictKeys, List.map_cons] at ih ⊢
      rw [ih]
      by_cases hm : k ∈ List.map Prod.fst rest
      · simp [hm]
      · have hne : ¬ k = k' := fun he => h he.symm
        simp [hm, hne]

/-- A dict assignment preserves key distinctness. -/
theorem nodup_dictKeys_dictSet (d : Row) (k : Key) (v : JVal)
    (h : (dictKeys d).Nodup) : (dictKeys (dictSet d k v)).Nodup := by
  rw [dictKeys_dictSet]
  split
  · exact h
  · next hm => simp [List.nodup_append, h, hm]

/-- Every pair of the updated dict is an old pair or the assigned pair. -/
theorem mem_dictSet (d : Row) (k : Key) (v : JVal) :
    ∀ q ∈ dictSet d k v, q ∈ d ∨ q = (k, v) := by
  induction d with
  | nil => intro q hq; simp [dictSet] at hq; right; exact hq
  | cons p rest ih =>
    obtain ⟨k', v'⟩ := p
    intro q hq
    by_cases h : k' = k
    · subst h
      simp only [dictSet, if_pos rfl] at hq
      rcases List.mem_cons.mp hq with h1 | h1
      · right; rw [h1]
      · left; exact List.mem_cons_of_mem _ h1
    · simp only [dictSet, if_neg h] at hq
      rcases List.mem_cons.mp hq with h1 | h1
      · left; exact h1 ▸ List.mem_cons_self _ _
      · rcases ih q h1 with h2 | h2
        · left; exact List.mem_cons_of_mem _ h2
        · right; exact h2

/-- Assigning a fresh key appends the pair. -/
theorem dictSet_of_not_mem (d : Row) (k : Key) (v : JVal) (h : k ∉ dictKeys d) :
    dictSet d k v = d ++ [(k, v)] := by
  induction d with
  | nil => simp [dictSet]
  | cons p rest ih =>
    obtain ⟨k', v'⟩ := p
    simp only [dictKeys, List.map_cons, List.mem_cons, not_or] at h
    have hne : ¬ k' = k := fun he => h.1 he.symm
    simp only [dictSet, if_neg hne, List.cons_append, List.cons.injEq, true_and]
    exact ih (by simp [dictKeys, h.2])

/-! ## Type-inference lemmas (C9) -/

/-- `_infer_type` is idempotent on each value: a non-string result passes
through unchanged, and a string result is the unchanged input, which falls
through all three conversion attempts again. -/
theorem inferType_inferType (v : JVal) : inferType (inferType v) = inferType v := by
  cases v with
  | s str =>
    by_cases hd : pyIsdigit str
    · simp [inferType, hd]
    · cases hf : pyFloatOfString str with
      | some fv => simp [inferType, hd, hf]
      | none =>
        by_cases ht : pyLower str = "true"
        · simp [inferType, hd, hf, ht]
        · by_cases hfa : pyLower str = "false"
          · simp [inferType, hd, hf, ht, hfa]
          · simp [inferType, hd, hf, ht, hfa]
  | i n => rfl
  | f fv => rfl
  | b bv => rfl
  | null => rfl
  | arr vs => rfl

/-- The keys of an inferred row are distinct (it is a Python dict). -/
theorem nodup_dictKeys_foldl (row : Row) :
    ∀ acc : Row, (dictKeys acc).Nodup →
      (dictKeys (row.foldl (fun r p => dictSet r p.1 (inferType p.2)) acc)).Nodup := by
  induction row with
  | nil => intro acc h; simpa using h
  | cons p rest ih =>
    intro acc h
    simp only [List.foldl_cons]
    exact ih _ (nodup_dictKeys_dictSet _ _ _ h)

/-- Every value stored by the inference pass is an `inferType` image. -/
theorem snd_foldl_inferType (row : Row) :
    ∀ acc : Row, (∀ q ∈ acc, ∃ w, q.2 = inferType w) →
      ∀ q ∈ row.foldl (fun r p => dictSet r p.1 (inferType p.2)) acc,
        ∃ w, q.2 = inferType w := by
  induction row with
  | nil => intro acc h q hq; exact h q (by simpa using hq)
  | cons p rest ih =>
    intro acc h q hq
    refine ih _ ?_ q (by simpa using hq)
    intro q' hq'
    rcases mem_dictSet acc p.1 (inferType p.2) q' hq' with h1 | h1
    · exact h q' h1
    · exact ⟨p.2, by rw [h1]⟩

/-- On a row whose keys are already distinct, the inference dict
comprehension is a plain value map. -/
theorem foldl_inferType_eq_map (row : Row) :
    ∀ acc : Row, (dictKeys row).Nodup → (∀ k ∈ dictKeys row, k ∉ dictKeys acc) →
      row.foldl (fun r p => dictSet r p.1 (inferType p.2)) acc =
        acc ++ row.map (fun p => (p.1, inferType p.2)) := by
  induction row with
  | nil => intro acc _ _; simp
  | cons p rest ih =>
    intro acc hnd hfresh
    simp only [dictKeys, List.map_cons, List.nodup_cons] at hnd
    simp only [List.foldl_cons, List.map_cons]
    rw [dictSet_of_not_mem acc p.1 _ (hfresh p.1 (List.mem_cons_self _ _))]
    rw [ih (acc ++ [(p.1, inferType p.2)]) hnd.2 ?_]
    · simp
    · intro k hk
      simp only [dictKeys, List.map_append, List.map_cons, List.map_nil, List.mem_append,
        List.mem_singleton, not_or]
      refine ⟨hfresh k (List.mem_cons_of_mem _ hk), ?_⟩
      intro he
      exact hnd.1 (he ▸ hk)

/-- One inference pass over an already-inferred row changes nothing. -/
theorem applyInferRow_idem (row : Row) :
    applyInferRow (applyInferRow row) = applyInferRow row := by
  have hnd : (dictKeys (applyInferRow row)).Nodup :=
    nodup_dictKeys_foldl row [] (by simp [dictKeys])
  have hvals : ∀ q ∈ applyInferRow row, ∃ w, q.2 = inferType w :=
    snd_foldl_inferType row [] (by intro q hq; simp at hq)
  have hmap : applyInferRow (applyInferRow row) =
      (applyInferRow row).map (fun p => (p.1, inferType p.2)) := by
    have := foldl_inferType_eq_map (applyInferRow row) [] hnd (by simp [dictKeys])
    simpa [applyInferRow] using this
  rw [hmap]
  conv_rhs => rw [← List.map_id (applyInferRow row)]
  apply List.map_congr_left
  intro q hq
  obtain ⟨w, hw⟩ := hvals q hq
  have hfix : inferType q.2 = q.2 := by rw [hw, inferType_inferType]
  rw [hfix]
  rfl

/-- C9: type inference is idempotent on every Dataset, and every non-string
value (integer, float, boolean) passes through `_infer_type` unchanged. -/
theorem infer_idempotent :
    (∀ ds : List Row, applyInfer (applyInfer ds) = applyInfer ds) ∧
    (∀ n : Int, inferType (.i n) = .i n) ∧
    (∀ fv : PyFloat, inferType (.f fv) = .f fv) ∧
    (∀ bv : Bool, inferType (.b bv) = .b bv) := by
  refine ⟨?_, fun n => rfl, fun fv => rfl, fun bv => rfl⟩
  intro ds
  unfold applyInfer
  rw [List.map_map]
  apply List.map_congr_left
  intro row _
  exact applyInferRow_idem row

/-! ## Serializer escaping (C4) -/

/-- Hex digits are ASCII. -/
theorem hexChar_ascii : ∀ n : Nat, n < 16 → (hexChar n).toNat < 128 := by decide

/-- The escape of a control character is ASCII. -/
theorem escape_control_ascii_aux :
    ∀ n : Nat, n < 32 →
      ((['\\', 'u', '0', '0', hexChar (n / 16), hexChar (n % 16)]).all
        (fun d => d.toNat < 128)) = true := by
  decide

/-- C4 amended: both serialization modes escape the quote, the backslash
and every control character (to ASCII escape sequences), but a non-ASCII
character is emitted verbatim because ASCII-escaping is disabled
(`ensure_ascii=False`); in particular `"José"` serializes with a raw `é`
in both modes. -/
theorem escaping_behavior :
    (∀ c : Char, 32 ≤ c.toNat → c ≠ '"' → c ≠ '\\' → escapeChar c = [c]) ∧
    (∀ c : Char, c.toNat < 32 → (escapeChar c).all (fun d => d.toNat < 128) = true) ∧
    convert_to_json [[(some "name", .s "José")]] false false =
      .ok "[\x7b\"name\": \"José\"\x7d]" ∧
    convert_to_json [[(some "name", .s "José")]] true false =
      .ok "[\n    \x7b\n        \"name\": \"José\"\n    \x7d\n]" := by
  refine ⟨?_, ?_, by decide, by decide⟩
  · intro c h h1 h2
    have hn : c ≠ '\n' := by intro he; subst he; revert h; decide
    have ht : c ≠ '\t' := by intro he; subst he; revert h; decide
    have hr : c ≠ '\r' := by intro he; subst he; revert h; decide
    have h8 : ¬ c.toNat = 8 := by omega
    have h12 : ¬ c.toNat = 12 := by omega
    have h32 : ¬ c.toNat < 32 := by omega
    simp [escapeChar, h1, h2, hn, ht, hr, h8, h12, h32]
  · intro c h
    have h1 : c ≠ '"' := by intro he; subst he; revert h; decide
    have h2 : c ≠ '\\' := by intro he; subst he; revert h; decide
    by_cases hn : c = '\n'
    · subst hn; decide
    by_cases ht : c = '\t'
    · subst ht; decide
    by_cases hr : c = '\r'
    · subst hr; decide
    by_cases h8 : c.toNat = 8
    · simp only [escapeChar, if_neg h1, if_neg h2, if_neg hn, if_neg ht, if_neg hr, if_pos h8]
      decide
    by_cases h12 : c.toNat = 12
    · simp only [escapeChar, if_neg h1, if_neg h2, if_neg hn, if_neg ht, if_neg hr, if_neg h8,
        if_pos h12]
      decide
    · simp only [escapeChar, if_neg h1, if_neg h2, if_neg hn, if_neg ht, if_neg hr, if_neg h8,
        if_neg h12, if_pos h]
      exact escape_control_ascii_aux c.toNat h

/-- Witness for the escaping theorem: the non-ASCII `é` is emitted
verbatim, and the control character `U+0001` escapes to ASCII. -/
theorem escaping_behavior_witness :
    escapeChar 'é' = ['é'] ∧ (escapeChar '\x01').all (fun d => d.toNat < 128) = true :=
  ⟨escaping_behavior.1 'é' (by decide) (by decide) (by decide),
   escaping_behavior.2.1 '\x01' (by decide)⟩

/-! ## Type-inference precedence (C5) -/

/-- C5 amended: `_infer_type` follows the stated precedence — digit test,
then float parse, then boolean, then fallthrough — but the integer pattern
applies to the untrimmed text (`str.isdigit` on the raw value), so a value
whose trimmed form is all digits but which carries surrounding whitespace,
such as `" 42"`, is classified by the float branch as floating-point 42.0,
not as an integer. -/
theorem infer_precedence :
    (∀ s : String, pyIsdigit s = true → inferType (.s s) = .i (digitsToNat s.data)) ∧
    (∀ s : String, ∀ fv : PyFloat, pyIsdigit s = false → pyFloatOfString s = some fv →
      inferType (.s s) = .f fv) ∧
    (∀ s : String, pyIsdigit s = false → pyFloatOfString s = none →
      pyLower s ≠ "true" → pyLower s ≠ "false" → inferType (.s s) = .s s) ∧
    inferType (.s " 42") = .f (.finite 42 1) ∧
    inferType (.s "95.5") = .f (.finite 191 2) ∧
    inferType (.s "true") = .b true ∧
    inferType (.s "False") = .b false ∧
    inferType (.s "LA") = .s "LA" := by
  refine ⟨?_, ?_, ?_, by decide, by decide, by decide, by decide, by decide⟩
  · intro s h
    simp [inferType, h]
  · intro s fv h hf
    simp [inferType, h, hf]
  · intro s h hf ht hfa
    simp [inferType, h, hf, ht, hfa]

/-- Witness for the precedence theorem at the digit string `"42"`. -/
theorem infer_precedence_witness :
    inferType (.s "42") = .i (digitsToNat "42".data) :=
  infer_precedence.1 "42" (by decide)

/-! ## Empty input (C7) -/

/-- C7: an input with at most one line — a completely empty file, a file
whose only line is blank, or a header-only file — fails with `EmptyInput`,
the identical error value in every case. -/
theorem parse_csv_empty_input (content : String) (delim : Char)
    (cols : Option (List String)) (size : Nat)
    (hsize : ¬ MAX_SIZE < size) (hlines : (linesRows content delim).length ≤ 1) :
    parse_csv true size content delim cols = .error .emptyInput := by
  unfold parse_csv
  rw [if_neg (by decide : ¬((!true) = true)), if_neg hsize]
  split
  · rfl
  · rename_i header rest heq
    rw [heq] at hlines
    have htl : rest = [] := by
      cases rest with
      | nil => rfl
      | cons a b => simp at hlines
    subst htl
    split
    · rfl
    · rfl

/-- C7 witness: the completely empty input and the header-only input both
fail with `EmptyInput`. -/
theorem parse_csv_empty_input_witness :
    parse_csv true 0 "" ',' none = .error .emptyInput ∧
    parse_csv true 0 "name,age" ',' none = .error .emptyInput :=
  ⟨parse_csv_empty_input "" ',' none 0 (by decide) (by decide),
   parse_csv_empty_input "name,age" ',' none 0 (by decide) (by decide)⟩

/-! ## Size cap (C8) -/

/-- The row loop never raises the size error. -/
theorem processRows_ne_tooLarge (fn : List String) (cols : Option (List String)) :
    ∀ (rows : List (List String)) (n : Nat) (acc : List Row),
      processRows fn cols rows n acc ≠ .error .tooLarge := by
  intro rows
  induction rows with
  | nil => intro n acc h; simp [processRows] at h
  | cons fields rest ih =>
    intro n acc h
    simp only [processRows] at h
    split at h
    · simp at h
    · exact ih _ _ h
    · split at h
      · simp at h
      · split at h
        · split at h
          · exact ih _ _ h
          · split at h
            · exact ih _ _ h
            · simp at h
        · exact ih _ _ h

/-- C8: for an existing input file, `parse_csv` fails with `TooLarge`
exactly when the byte size exceeds the 10 MiB cap; a file of exactly
`10 * 1024 * 1024` bytes passes the size check, one byte more fails. -/
theorem parse_csv_size_cap (size : Nat) (content : String) (delim : Char)
    (cols : Option (List String)) :
    parse_csv true size content delim cols = .error .tooLarge ↔ MAX_SIZE < size := by
  unfold parse_csv
  rw [if_neg (by decide : ¬((!true) = true))]
  by_cases hs : MAX_SIZE < size
  · rw [if_pos hs]
    simp [hs]
  · rw [if_neg hs]
    simp only [hs, iff_false]
    split
    · simp
    · rename_i header rest heq0
      split
      · simp
      · split
        · rename_i e heq
          intro hc
          injection hc with hc2
          exact processRows_ne_tooLarge header cols (rest.filter (fun r => !r.isEmpty)) 2 []
            (by rw [heq, hc2])
        · split <;> simp

/-- C8 witness: a file of exactly the cap parses, one byte over fails. -/
theorem parse_csv_size_cap_witness :
    parse_csv true (10 * 1024 * 1024) "name,age\nAlice,30" ',' none =
      .ok [[(some "name", .s "Alice"), (some "age", .s "30")]] ∧
    parse_csv true (10 * 1024 * 1024 + 1) "name,age\nAlice,30" ',' none =
      .error .tooLarge :=
  ⟨by decide,
   (parse_csv_size_cap (10 * 1024 * 1024 + 1) "name,age\nAlice,30" ',' none).mpr (by decide)⟩

/-! ## Column projection (C6) -/

/-- The accumulator is only a prefix of the row loop's result. -/
theorem processRows_acc (fn : List String) (cols : Option (List String)) :
    ∀ (rows : List (List String)) (n : Nat) (acc1 acc2 : List Row),
      processRows fn cols rows n (acc1 ++ acc2) =
        (processRows fn cols rows n acc2).map (fun r => acc1 ++ r) := by
  intro rows
  induction rows with
  | nil => intro n a1 a2; simp [processRows, Except.map]
  | cons fields rest ih =>
    intro n a1 a2
    cases hb : rowNonBlank ((buildRow fn fields).map Prod.snd) with
    | error e => simp [processRows, hb, Except.map]
    | ok b =>
      cases b with
      | false =>
        simp only [processRows, hb]
        exact ih _ a1 a2
      | true =>
        by_cases hlen : (buildRow fn fields).length ≠ fn.length
        · simp [processRows, hb, hlen, Except.map]
        · cases cols with
          | none =>
            simp only [processRows, hb]
            rw [if_neg hlen, if_neg hlen, List.append_assoc]
            exact ih _ a1 _
          | some cs =>
            by_cases hcs : cs.isEmpty = true
            · simp only [processRows, hb]
              rw [if_neg hlen, if_neg hlen, if_pos hcs, if_pos hcs, List.append_assoc]
              exact ih _ a1 _
            · by_cases hinv : ((cs.filter (fun c => !(fn.contains c))).dedup).isEmpty = true
              · simp only [processRows, hb]
                rw [if_neg hlen, if_neg hlen, if_neg hcs, if_neg hcs, if_pos hinv, if_pos hinv,
                  List.append_assoc]
                exact ih _ a1 _
              · simp only [processRows, hb]
                rw [if_neg hlen, if_neg hlen, if_neg hcs, if_neg hcs, if_neg hinv, if_neg hinv]
                simp [Except.map]

/-- Special case: a singleton accumulator prefixes the result. -/
theorem processRows_acc_nil (fn : List String) (cols : Option (List String))
    (rows : List (List String)) (n : Nat) (acc : List Row) :
    processRows fn cols rows n acc =
      (processRows fn cols rows n []).map (fun r => acc ++ r) := by
  have h := processRows_acc fn cols rows n acc []
  simpa using h

/-- With a nonempty allow-list entirely inside the header, the filtered run
returns exactly the projections of the unfiltered run's rows. -/
theorem processRows_project (fn cs : List String)
    (hne : ¬ cs.isEmpty = true) (hsub : ∀ c ∈ cs, c ∈ fn) :
    ∀ (rows : List (List String)) (n : Nat),
      processRows fn (some cs) rows n [] =
        (processRows fn none rows n []).map (List.map (projectRow cs)) := by
  have hfil : cs.filter (fun c => !(fn.contains c)) = [] := by
    apply List.filter_eq_nil_iff.mpr
    intro a ha
    simp [List.elem_eq_mem, List.contains, hsub a ha]
  intro rows
  induction rows with
  | nil => intro n; simp [processRows, Except.map]
  | cons fields rest ih =>
    intro n
    cases hb : rowNonBlank ((buildRow fn fields).map Prod.snd) with
    | error e => simp [processRows, hb, Except.map]
    | ok b =>
      cases b with
      | false =>
        simp only [processRows, hb]
        exact ih _
      | true =>
        by_cases hlen : (buildRow fn fields).length ≠ fn.length
        · simp [processRows, hb, hlen, Except.map]
        · simp only [processRows, hb]
          rw [if_neg hlen, if_neg hlen, if_neg hne, hfil]
          rw [if_pos (by decide : (([] : List String).dedup).isEmpty = true)]
          rw [processRows_acc_nil fn (some cs) rest (n + 1),
            processRows_acc_nil fn none rest (n + 1), ih (n + 1)]
          cases processRows fn none rest (n + 1) [] <;> simp [Except.map]

/-- With a nonempty allow-list containing an unknown name, the filtered run
fails with `UnknownColumn` as soon as the unfiltered run retains a row. -/
theorem processRows_unknown (fn cs : List String)
    (hne : ¬ cs.isEmpty = true)
    (hbad : ¬ ((cs.filter (fun c => !(fn.contains c))).dedup).isEmpty = true) :
    ∀ (rows : List (List String)) (n : Nat) (res : List Row),
      processRows fn none rows n [] = .ok res → res ≠ [] →
        processRows fn (some cs) rows n [] =
          .error (.unknownColumn ((cs.filter (fun c => !(fn.contains c))).dedup)) := by
  intro rows
  induction rows with
  | nil =>
    intro n res hok hres
    simp only [processRows] at hok
    exact absurd (Except.ok.inj hok).symm hres
  | cons fields rest ih =>
    intro n res hok hres
    cases hb : rowNonBlank ((buildRow fn fields).map Prod.snd) with
    | error e => simp [processRows, hb] at hok
    | ok b =>
      cases b with
      | false =>
        simp only [processRows, hb] at hok ⊢
        exact ih _ res hok hres
      | true =>
        by_cases hlen : (buildRow fn fields).length ≠ fn.length
        · simp [processRows, hb, hlen] at hok
        · simp only [processRows, hb] at hok ⊢
          rw [if_neg hlen] at hok ⊢
          rw [if_neg hne, if_neg hbad]

/-- The assigned key is among the updated dict's keys. -/
theorem mem_dictKeys_dictSet_self (d : Row) (k : Key) (v : JVal) :
    k ∈ dictKeys (dictSet d k v) := by
  rw [dictKeys_dictSet]
  split
  · assumption
  · exact List.mem_append.mpr (Or.inr (List.mem_singleton.mpr rfl))

/-- Existing keys survive a dict assignment. -/
theorem mem_dictKeys_dictSet_of_mem (d : Row) (k k' : Key) (v : JVal)
    (h : k' ∈ dictKeys d) : k' ∈ dictKeys (dictSet d k v) := by
  rw [dictKeys_dictSet]
  split
  · exact h
  · exact List.mem_append.mpr (Or.inl h)

/-- Keys covered by the zip fold of `DictReader`'s dict construction. -/
theorem mem_keys_zipfold :
    ∀ (ps : List (String × String)) (acc : Row) (c : String),
      (some c ∈ dictKeys acc ∨ c ∈ ps.map Prod.fst) →
      some c ∈ dictKeys (ps.foldl (fun d p => dictSet d (some p.1) (.s p.2)) acc) := by
  intro ps
  induction ps with
  | nil =>
    intro acc c h
    rcases h with h | h
    · simpa using h
    · simp at h
  | cons p rest ih =>
    intro acc c h
    simp only [List.foldl_cons]
    apply ih
    rcases h with h | h
    · exact Or.inl (mem_dictKeys_dictSet_of_mem _ _ _ _ h)
    · rcases List.mem_cons.mp h with h | h
      · left
        rw [h]
        exact mem_dictKeys_dictSet_self _ _ _
      · exact Or.inr h

/-- Keys covered by the restval padding fold. -/
theorem mem_keys_padfold :
    ∀ (ks : List String) (acc : Row) (c : String),
      (some c ∈ dictKeys acc ∨ c ∈ ks) →
      some c ∈ dictKeys (ks.foldl (fun d' k => dictSet d' (some k) .null) acc) := by
  intro ks
  induction ks with
  | nil =>
    intro acc c h
    rcases h with h | h
    · simpa using h
    · simp at h
  | cons k rest ih =>
    intro acc c h
    simp only [List.foldl_cons]
    apply ih
    rcases h with h | h
    · exact Or.inl (mem_dictKeys_dictSet_of_mem _ _ _ _ h)
    · rcases List.mem_cons.mp h with h | h
      · left
        rw [h]
        exact mem_dictKeys_dictSet_self _ _ _
      · exact Or.inr h

/-- A header name appearing in a prefix that the zip covers is a key of the
zipped dict. -/
theorem mem_map_fst_zip_of_mem_take :
    ∀ (l1 l2 : List String) (c : String), c ∈ l1.take l2.length →
      c ∈ (l1.zip l2).map Prod.fst := by
  intro l1
  induction l1 with
  | nil => intro l2 c h; simp at h
  | cons a l1' ih =>
    intro l2 c h
    cases l2 with
    | nil => simp at h
    | cons b l2' =>
      simp only [List.length_cons, List.take_succ_cons, List.mem_cons] at h
      rcases h with h | h
      · simp [h]
      · simp only [List.zip_cons_cons, List.map_cons, List.mem_cons]
        exact Or.inr (ih l2' c h)

/-- Every header name is a key of the dict `DictReader` builds, whatever
the record's field count (zipped, or padded with the restval). -/
theorem mem_dictKeys_buildRow (fn fields : List String) (c : String) (hc : c ∈ fn) :
    some c ∈ dictKeys (buildRow fn fields) := by
  unfold buildRow
  by_cases h1 : fn.length < fields.length
  · rw [if_pos h1]
    apply mem_dictKeys_dictSet_of_mem
    apply mem_keys_zipfold
    refine Or.inr (mem_map_fst_zip_of_mem_take fn fields c ?_)
    rw [List.take_of_length_le (le_of_lt h1)]
    exact hc
  · rw [if_neg h1]
    by_cases h2 : fields.length < fn.length
    · rw [if_pos h2]
      apply mem_keys_padfold
      rw [← List.take_append_drop fields.length fn] at hc
      rcases List.mem_append.mp hc with h | h
      · exact Or.inl (mem_keys_zipfold _ _ _ (Or.inr (mem_map_fst_zip_of_mem_take fn fields c h)))
      · exact Or.inr h
    · rw [if_neg h2]
      apply mem_keys_zipfold
      refine Or.inr (mem_map_fst_zip_of_mem_take fn fields c ?_)
      rw [List.take_of_length_le (by omega)]
      exact hc

/-- Every retained row of an unfiltered run is a `DictReader` dict. -/
theorem processRows_none_shape (fn : List String) :
    ∀ (rows : List (List String)) (n : Nat) (acc res : List Row),
      processRows fn none rows n acc = .ok res →
      ∀ r ∈ res, r ∈ acc ∨ ∃ fields, r = buildRow fn fields := by
  intro rows
  induction rows with
  | nil =>
    intro n acc res hok r hr
    simp only [processRows] at hok
    exact Or.inl ((Except.ok.inj hok) ▸ hr)
  | cons fields rest ih =>
    intro n acc res hok r hr
    cases hb : rowNonBlank ((buildRow fn fields).map Prod.snd) with
    | error e => simp [processRows, hb] at hok
    | ok b =>
      cases b with
      | false =>
        simp only [processRows, hb] at hok
        exact ih _ _ _ hok r hr
      | true =>
        by_cases hlen : (buildRow fn fields).length ≠ fn.length
        · simp [processRows, hb, hlen] at hok
        · simp only [processRows, hb] at hok
          rw [if_neg hlen] at hok
          rcases ih _ _ _ hok r hr with h | h
          · rcases List.mem_append.mp h with h | h
            · exact Or.inl h
            · exact Or.inr ⟨fields, List.mem_singleton.mp h⟩
          · exact Or.inr h

/-- The projection dict comprehension, on an allow-list of distinct names
all present in the row, lists exactly the requested columns in requested
order with the row's values. -/
theorem projectRow_foldl_aux (d : Row) :
    ∀ (cols : List String) (acc : Row), cols.Nodup →
      (∀ c ∈ cols, some c ∈ dictKeys d) →
      (∀ c ∈ cols, some c ∉ dictKeys acc) →
      cols.foldl
          (fun r c => if (some c) ∈ dictKeys d then dictSet r (some c) (dictGet d (some c))
            else r) acc =
        acc ++ cols.map (fun c => (some c, dictGet d (some c))) := by
  intro cols
  induction cols with
  | nil => intro acc _ _ _; simp
  | cons c cs ih =>
    intro acc hnd hmem hfresh
    simp only [List.foldl_cons, List.map_cons]
    rw [if_pos (hmem c (List.mem_cons_self _ _))]
    rw [dictSet_of_not_mem acc (some c) _ (hfresh c (List.mem_cons_self _ _))]
    rw [ih (acc ++ [(some c, dictGet d (some c))]) (List.nodup_cons.mp hnd).2
      (fun c' hc' => hmem c' (List.mem_cons_of_mem _ hc')) ?_]
    · simp
    · intro c' hc'
      simp only [dictKeys, List.map_append, List.map_cons, List.map_nil, List.mem_append,
        List.mem_singleton, not_or]
      refine ⟨hfresh c' (List.mem_cons_of_mem _ hc'), ?_⟩
      intro he
      exact (List.nodup_cons.mp hnd).1 ((Option.some.inj he) ▸ hc')

/-- `projectRow` as a plain map over the requested names. -/
theorem projectRow_eq_map (cols : List String) (d : Row) (hnd : cols.Nodup)
    (hall : ∀ c ∈ cols, some c ∈ dictKeys d) :
    projectRow cols d = cols.map (fun c => (some c, dictGet d (some c))) := by
  unfold projectRow
  have h := projectRow_foldl_aux d cols [] hnd hall (by intro c _; simp [dictKeys])
  simpa using h

/-- Unfolding of `parse_csv` on an existing, size-admissible file with a
nonblank header line. -/
theorem parse_csv_cons (size : Nat) (content : String) (delim : Char)
    (cols' : Option (List String)) (header : List String) (rest : List (List String))
    (hs : ¬ MAX_SIZE < size) (hl : linesRows content delim = header :: rest)
    (hh : ¬ header.isEmpty = true) :
    parse_csv true size content delim cols' =
      match processRows header cols' (rest.filter (fun r => !r.isEmpty)) 2 [] with
      | .error e => .error e
      | .ok data => if data.isEmpty = true then .error .emptyInput else .ok data := by
  rw [parse_csv, if_neg (by decide : ¬((!true) = true)), if_neg hs]
  split
  · rename_i h0
    rw [hl] at h0
    cases h0
  · rename_i header' rest' h0
    rw [hl] at h0
    injection h0 with h1 h2
    subst h1
    subst h2
    rw [if_neg hh]

/-- C6: on an input whose unfiltered parse succeeds, a nonempty column
allow-list either projects every Row to exactly the requested columns in
requested order with the unprojected row's values (when every requested
name is in the header), or makes `parse_csv` fail with `UnknownColumn`
naming the offending columns (when some requested name is missing). -/
theorem parse_csv_projection (ex : Bool) (size : Nat) (content : String) (delim : Char)
    (cols : List String) (ds : List Row)
    (hne : cols ≠ [])
    (hok : parse_csv ex size content delim none = .ok ds) :
    ((∀ c ∈ cols, c ∈ headerOf content delim) →
      parse_csv ex size content delim (some cols) = .ok (ds.map (projectRow cols)) ∧
      (cols.Nodup → ∀ row ∈ ds, projectRow cols row =
        cols.map (fun c => (some c, dictGet row (some c))))) ∧
    ((∃ c ∈ cols, c ∉ headerOf content delim) →
      parse_csv ex size content delim (some cols) =
        .error (.unknownColumn ((cols.filter
          (fun c => !((headerOf content delim).contains c))).dedup))) := by
  have hne' : ¬ cols.isEmpty = true := by
    cases cols with
    | nil => exact absurd rfl hne
    | cons a b => simp
  cases ex with
  | false => simp [parse_csv] at hok
  | true =>
    rw [parse_csv, if_neg (by decide : ¬((!true) = true))] at hok
    by_cases hs : MAX_SIZE < size
    · rw [if_pos hs] at hok
      cases hok
    · rw [if_neg hs] at hok
      split at hok
      · cases hok
      · rename_i header rest hl
        by_cases hh : header.isEmpty = true
        · rw [if_pos hh] at hok
          cases hok
        · rw [if_neg hh] at hok
          have hho : headerOf content delim = header := by simp [headerOf, hl]
          cases hp : processRows header none (rest.filter (fun r => !r.isEmpty)) 2 [] with
          | error e =>
            rw [hp] at hok
            simp at hok
          | ok data =>
            rw [hp] at hok
            simp only [] at hok
            by_cases hd2 : data.isEmpty = true
            · rw [if_pos hd2] at hok
              cases hok
            · rw [if_neg hd2] at hok
              have hds : data = ds := Except.ok.inj hok
              subst hds
              have hdata_ne : data ≠ [] := by
                intro h0
                rw [h0] at hd2
                exact hd2 rfl
              constructor
              · intro hsubm
                have hsub : ∀ c ∈ cols, c ∈ header := fun c hc => hho ▸ hsubm c hc
                constructor
                · rw [parse_csv_cons size content delim (some cols) header rest hs hl hh]
                  rw [processRows_project header cols hne' hsub, hp]
                  have hmapne : ¬ (data.map (projectRow cols)).isEmpty = true := by
                    simp [List.isEmpty_iff, List.map_eq_nil_iff, hdata_ne]
                  simp only [Except.map]
                  rw [if_neg hmapne]
                · intro hndp row hrow
                  rcases processRows_none_shape header _ 2 [] data hp row hrow with h | h
                  · simp at h
                  · obtain ⟨fields, hfe⟩ := h
                    exact projectRow_eq_map cols row hndp
                      (fun c hc => hfe ▸ mem_dictKeys_buildRow header fields c (hsub c hc))
              · intro hbadm
                obtain ⟨c, hc, hcnot⟩ := hbadm
                rw [hho] at hcnot ⊢
                have hbad :
                    ¬ ((cols.filter (fun c => !(header.contains c))).dedup).isEmpty = true := by
                  have hcf : c ∈ cols.filter (fun c => !(header.contains c)) :=
                    List.mem_filter.mpr ⟨hc, by simp [List.contains, List.elem_eq_mem, hcnot]⟩
                  have hcd := List.mem_dedup.mpr hcf
                  intro hempty
                  rw [List.isEmpty_iff.mp hempty] at hcd
                  simp at hcd
                rw [parse_csv_cons size content delim (some cols) header rest hs hl hh]
                rw [processRows_unknown header cols hne' hbad _ 2 data hp hdata_ne]

/-- C6 witness at the spec's Scenario 5: selecting `["city"]` from a
three-column input keeps only the `city` key in each row. -/
theorem parse_csv_projection_witness :
    parse_csv true 0 "name,age,city\nJohn,25,NY\nJane,30,LA" ',' (some ["city"]) =
      .ok [[(some "city", .s "NY")], [(some "city", .s "LA")]] := by
  have h := parse_csv_projection true 0 "name,age,city\nJohn,25,NY\nJane,30,LA" ',' ["city"]
    [[(some "name", .s "John"), (some "age", .s "25"), (some "city", .s "NY")],
     [(some "name", .s "Jane"), (some "age", .s "30"), (some "city", .s "LA")]]
    (by decide) (by decide)
  have h2 := (h.1 (by decide)).1
  rw [h2]
  decide

/-! ## Duplicate headers (C2) -/

/-- Python dict assignment: a later assignment to the same key overwrites
the earlier one. -/
theorem dictSet_dictSet (d : Row) (k : Key) (v1 v2 : JVal) :
    dictSet (dictSet d k v1) k v2 = dictSet d k v2 := by
  induction d with
  | nil => simp [dictSet]
  | cons p rest ih =>
    obtain ⟨k', v'⟩ := p
    by_cases h : k' = k
    · subst h
      simp [dictSet]
    · simp [dictSet, h, ih]

/-- The zip fold of `DictReader`'s dict construction keeps keys distinct. -/
theorem nodup_dictKeys_zipfold :
    ∀ (ps : List (String × String)) (acc : Row), (dictKeys acc).Nodup →
      (dictKeys (ps.foldl (fun d p => dictSet d (some p.1) (.s p.2)) acc)).Nodup := by
  intro ps
  induction ps with
  | nil => intro acc h; simpa using h
  | cons p rest ih =>
    intro acc h
    simp only [List.foldl_cons]
    exact ih _ (nodup_dictKeys_dictSet _ _ _ h)

/-- Keys of the zip fold come from the accumulator or the zipped names. -/
theorem dictKeys_zipfold_subset :
    ∀ (ps : List (String × String)) (acc : Row),
      dictKeys (ps.foldl (fun d p => dictSet d (some p.1) (.s p.2)) acc) ⊆
        dictKeys acc ++ ps.map (fun p => some p.1) := by
  intro ps
  induction ps with
  | nil => intro acc; simp
  | cons p rest ih =>
    intro acc k hk
    simp only [List.foldl_cons] at hk
    simp only [List.map_cons]
    rcases List.mem_append.mp (ih (dictSet acc (some p.1) (.s p.2)) hk) with h | h
    · rw [dictKeys_dictSet] at h
      by_cases hm : some p.1 ∈ dictKeys acc
      · rw [if_pos hm] at h
        exact List.mem_append.mpr (Or.inl h)
      · rw [if_neg hm] at h
        rcases List.mem_append.mp h with h2 | h2
        · exact List.mem_append.mpr (Or.inl h2)
        · rw [List.mem_singleton.mp h2]
          exact List.mem_append.mpr (Or.inr (List.mem_cons_self _ _))
    · exact List.mem_append.mpr (Or.inr (List.mem_cons_of_mem _ h))

/-- Under a header with duplicate names, the dict built for a record with
exactly header-many fields collapses: its key count cannot reach the
header's column count, so the field-count check fires. -/
theorem buildRow_length_dup (fn fields : List String) (hdup : ¬ fn.Nodup)
    (hw : fields.length = fn.length) : (buildRow fn fields).length ≠ fn.length := by
  intro hlen
  apply hdup
  have hbr : buildRow fn fields = zipDict fn fields := by
    unfold buildRow
    rw [if_neg (by omega), if_neg (by omega)]
  rw [hbr] at hlen
  have hnd : (dictKeys (zipDict fn fields)).Nodup :=
    nodup_dictKeys_zipfold _ [] (by simp [dictKeys])
  have hmap : (List.zip fn fields).map (fun p => some p.1) = fn.map some := by
    conv_rhs => rw [← List.map_fst_zip fn fields (by omega)]
    rw [List.map_map]
    rfl
  have hsub : dictKeys (zipDict fn fields) ⊆ fn.map some := by
    intro k hk
    have h2 := dictKeys_zipfold_subset (List.zip fn fields) [] hk
    rw [hmap] at h2
    simpa [dictKeys] using h2
  have hlenk : (fn.map some).length ≤ (dictKeys (zipDict fn fields)).length := by
    simp only [dictKeys, List.length_map]
    omega
  have hperm : List.Perm (dictKeys (zipDict fn fields)) (fn.map some) :=
    List.Subperm.perm_of_length_le (List.subperm_of_subset hnd hsub) hlenk
  exact List.Nodup.of_map some (hperm.nodup_iff.mp hnd)

/-- Whenever the row loop reaches a non-blank record with exactly
header-many fields under a duplicated header, it fails with
`InconsistentRow` at that record's number. -/
theorem processRows_dup_header_rejects (fn fields : List String)
    (cols : Option (List String)) (rows : List (List String)) (n : Nat) (acc : List Row)
    (hdup : ¬ fn.Nodup) (hw : fields.length = fn.length)
    (hnb : rowNonBlank ((buildRow fn fields).map Prod.snd) = .ok true) :
    processRows fn cols (fields :: rows) n acc = .error (.inconsistentRow n) := by
  simp only [processRows, hnb]
  rw [if_pos (buildRow_length_dup fn fields hdup hw)]

/-- C2 amended: no validation rejects duplicate header names, and a later
assignment for the same key overwrites the earlier value in the row dict;
but under any header with duplicate names, every non-blank data row whose
field count equals the header's column count collapses to a dict with
fewer keys than the header has columns and is rejected by the per-row
field-count check with `InconsistentRow` at its line number.  In
particular `a,a` with row `1,2` fails at line 2 (the collapsed dict holds
the later value `"2"`), while a row with extra fields can still parse
(`a,a` with row `1,2,3`). -/
theorem parse_csv_dup_header_behavior :
    (∀ (d : Row) (k : Key) (v1 v2 : JVal), dictSet (dictSet d k v1) k v2 = dictSet d k v2) ∧
    (∀ (fn fields : List String), ¬ fn.Nodup → fields.length = fn.length →
      (buildRow fn fields).length ≠ fn.length) ∧
    (∀ (fn fields : List String) (cols : Option (List String))
        (rows : List (List String)) (n : Nat) (acc : List Row),
      ¬ fn.Nodup → fields.length = fn.length →
      rowNonBlank ((buildRow fn fields).map Prod.snd) = .ok true →
      processRows fn cols (fields :: rows) n acc = .error (.inconsistentRow n)) ∧
    buildRow ["a", "a"] ["1", "2"] = [(some "a", .s "2")] ∧
    parse_csv true 0 "a,a\n1,2" ',' none = .error (.inconsistentRow 2) ∧
    parse_csv true 0 "a,a\n1,2,3" ',' none =
      .ok [[(some "a", .s "2"), (none, .arr ["3"])]] :=
  ⟨dictSet_dictSet, buildRow_length_dup, processRows_dup_header_rejects,
   by decide, by decide, by decide⟩

/-- C2 witness: the universal rejection applied at the duplicated header
`a,a` with the width-matching row `1,2`. -/
theorem parse_csv_dup_header_behavior_witness :
    processRows ["a", "a"] none [["1", "2"]] 2 [] = .error (.inconsistentRow 2) :=
  parse_csv_dup_header_behavior.2.2.1 ["a", "a"] ["1", "2"] none [] 2 []
    (by decide) (by decide) (by decide)

end CsvToJson
